import Mathlib

/-!
albion-mapper-backend: zone catalog and portal lifecycle.

A shallow embedding of `albion/albion.go`.

* Go strings are Lean `String`s (sequences of runes; the snapshot comes out of
  `json.Unmarshal`, which only produces valid UTF-8).
* `int` is `Int`; a `time.Time` is the instant it denotes, an `Int`, and
  `Time.Before` is `<` on instants.
* A Go `error` value is an `Error`; `nil` is `none`.
* A run-time panic (index out of range, a method call through a nil handle) is
  an explicit outcome.
* The package-level variable `zones` is passed and returned explicitly.
* The relational collaborator reached through `db.GetDb()` is a list of stored
  rows together with, for every call, the way the collaborator behaves on that
  call (`Conn`).
-/

namespace Albion

/-! ## Strings: the two standard-library functions used by `LoadZones` -/

/-- The ASCII branch of `unicode.ToLower`: `'A'..'Z'` are shifted by `'a' - 'A'`. -/
def lowerASCII (c : Char) : Char :=
  if 'A' ≤ c ∧ c ≤ 'Z' then Char.ofNat (c.toNat + 32) else c

/-- `unicode.ToLower` on one rune.  Runes up to `unicode.MaxASCII` take the ASCII
branch; for the others the standard library consults its case tables, which are
data of the Go distribution and are taken as the parameter `tbl`. -/
def lowerRune (tbl : Char → Char) (c : Char) : Char :=
  if c.toNat < 128 then lowerASCII c else tbl c

/-- `strings.ToLower`: every rune mapped by `unicode.ToLower`. -/
def ToLower (tbl : Char → Char) (s : String) : String :=
  String.mk (s.data.map (lowerRune tbl))

/-- A case table without entries: runes above ASCII are left alone.  Used where a
concrete table is needed to evaluate an ASCII-only input. -/
def noCaseTable : Char → Char := fun c => c

/-- Scan for `strings.Split` with a one-rune separator: `acc` holds the runes of
the segment being read, latest first. -/
def splitAux (sep : Char) : List Char → List Char → List String
  | [], acc => [String.mk acc.reverse]
  | c :: cs, acc =>
    if c = sep then String.mk acc.reverse :: splitAux sep cs []
    else splitAux sep cs (c :: acc)

/-- `strings.Split(s, sep)` for a separator of one rune, as at its only call site
`strings.Split(z.Type, "_")`: the segments between consecutive separators, so
the result always has at least one element. -/
def Split (s : String) (sep : Char) : List String := splitAux sep s.data []

/-! ## Data model -/

/-- A Go `error` value, identified by its message. -/
abbrev Error := String

/-- Mirrors `type Resource struct`. -/
structure Resource where
  Name : String
  Tier : String
deriving DecidableEq, Repr

/-- Mirrors `type Zone struct`; the field `Type` is spelled `Typ`. -/
structure Zone where
  Name : String
  Color : String
  Typ : String
  Markers : List String
  Resources : List Resource
deriving DecidableEq, Repr

/-- Mirrors `type dataResources struct`. -/
structure dataResources where
  Name : String
  Tier : String
deriving DecidableEq, Repr

/-- Mirrors `type mapMarker struct`; the field `Type` is spelled `Typ`. -/
structure mapMarker where
  Typ : String
deriving DecidableEq, Repr

/-- Mirrors `type dataZone struct`; the field `Type` is spelled `Typ`. -/
structure dataZone where
  Name : String
  Typ : String
  Resources : List dataResources
  Markers : List mapMarker
deriving DecidableEq, Repr

/-- The package variable `validColors`. -/
def validColors : List String := ["black", "red", "yellow", "blue", "road"]

/-- The package variable `markerMapping`, as its list of key/value pairs. -/
def markerMapping : List (String × String) :=
  [("roads_of_avalon_solo_pve", "Solo PvE content"),
   ("roads_of_avalon_group_pve", "Group PvE content"),
   ("roads_of_avalon_raid_pve", "Raid PvE content")]

/-- Mirrors `type Portal struct`.  The field `TimeLeft` (a `float64` that
`GetPortals` fills with the minutes left) is read by none of the functions
embedded here and is left out. -/
structure Portal where
  id : Int
  Source : String
  Target : String
  Size : Int
  Expires : Int
deriving DecidableEq, Repr

/-! ## LoadZones -/

/-- The colour part of the loop body of `LoadZones` (lines 67-78).  `zone.Color`
starts as the zero value `""`.  `none` is the run-time panic of an index
expression `parts[i]` with `i` out of range. -/
def deriveColor (tbl : Char → Char) (typ : String) : Option String :=
  if typ = "SAFEAREA" then some "blue"
  else
    let parts := Split typ '_'
    match parts[0]? with
    | none => none
    | some p0 =>
      let color := if p0 = "TUNNEL" then "road" else ""
      if p0 = "OPENPVP" then
        match parts[1]? with
        | none => none
        | some p1 => some (ToLower tbl p1)
      else some color

/-- One step of the marker loop (lines 81-85): the raw type, replaced by its
entry in `markerMapping` when it is a key. -/
def markerName (marker : mapMarker) : String :=
  match markerMapping.lookup marker.Typ with
  | some mappedName => mappedName
  | none => marker.Typ

/-- The marker loop (lines 80-86): `zone.Markers` grows by one name per marker. -/
def loadMarkers (markers : List mapMarker) : List String :=
  markers.foldl (fun acc marker => acc ++ [markerName marker]) []

/-- The resource loop (lines 88-90). -/
def loadResources (resources : List dataResources) : List Resource :=
  resources.foldl (fun acc r => acc ++ [{ Name := r.Name, Tier := r.Tier }]) []

/-- The body of the loop of `LoadZones` up to the final append, for one
descriptor: the zone that is appended, or `none` when the body panics. -/
def loadZone (tbl : Char → Char) (z : dataZone) : Option Zone :=
  match deriveColor tbl z.Typ with
  | none => none
  | some color =>
    some { Name := z.Name, Color := color, Typ := z.Typ,
           Markers := loadMarkers z.Markers, Resources := loadResources z.Resources }

/-- How a call of `LoadZones` ends. -/
inductive LoadOutcome where
  | returned (err : Option Error)
  | panicked
deriving DecidableEq, Repr

/-- The loop `for _, z := range raw` of `LoadZones`, on the package variable
`zones`: every completed iteration has already appended its zone when a later
one panics. -/
def loadLoop (tbl : Char → Char) : List Zone → List dataZone → List Zone × LoadOutcome
  | zones, [] => (zones, LoadOutcome.returned none)
  | zones, z :: rest =>
    match loadZone tbl z with
    | none => (zones, LoadOutcome.panicked)
    | some zone => loadLoop tbl (zones ++ [zone]) rest

/-- `LoadZones`.  `zones` is the package variable before the call; `file` is
what `ioutil.ReadFile` followed by `json.Unmarshal` deliver: the parsed
descriptors, or the error of whichever of the two failed.  Returns the package
variable after the call and the way the call ended. -/
def LoadZones (tbl : Char → Char) (zones : List Zone) (file : Except Error (List dataZone)) :
    List Zone × LoadOutcome :=
  match file with
  | Except.error err => (zones, LoadOutcome.returned (some err))
  | Except.ok raw => loadLoop tbl zones raw

/-- `GetZones`: the package variable, which only `LoadZones` fills; no database
is read, whatever the comment above the function says. -/
def GetZones (zones : List Zone) : List Zone := zones

/-! ## Portal validation -/

/-- `zoneNameInZones`. -/
def zoneNameInZones (name : String) : List Zone → Bool
  | [] => false
  | z :: zones => if z.Name = name then true else zoneNameInZones name zones

/-- `IsValidPortal`, with the package variable `zones` explicit.  The second
component is the returned `error`. -/
def IsValidPortal (zones : List Zone) (portal : Portal) : Bool × Option Error :=
  if ¬ (portal.Size = 2 ∨ portal.Size = 7 ∨ portal.Size = 20) then (false, none)
  else
    let zones := GetZones zones
    (zoneNameInZones portal.Source zones && zoneNameInZones portal.Target zones, none)

/-! ## The portal store -/

/-- How the collaborator behaves during one call that reaches it: `db.GetDb()`
fails, `db.GetDb()` succeeds and the query fails, or both succeed.  A query that
fails hands back its error and a nil handle. -/
inductive Conn where
  | up
  | getDbFails (err : Error)
  | queryFails (err : Error)
deriving DecidableEq, Repr

/-- How a call of `AddPortal` or `deletePortal` ends: it returns an `error`
value, or it panics. -/
inductive Outcome where
  | returned (err : Option Error)
  | panicked
deriving DecidableEq, Repr

/-- `GetPortals`: the rows of the `portals` relation, or `[]Portal{}` and the
error when reaching the collaborator, the query, scanning a row or parsing its
timestamp fails (`fault`).  The function checks the error of its query before it
defers `rows.Close()`. -/
def GetPortals (store : List Portal) (fault : Option Error) : List Portal × Option Error :=
  match fault with
  | some err => ([], some err)
  | none => (store, none)

/-- Modelled from the spec: the statement `REPLACE INTO portals (source, target,
size, expires)` run by the storage collaborator; the relation and its keys are
declared in the package `db`, which is missing.  The spec has it upsert by the
natural key (source, target): any stored record sharing the key is fully
replaced, and the identifier of the new record is assigned by the collaborator
(`newId`). -/
def replaceInto (store : List Portal) (portal : Portal) (newId : Int) : List Portal :=
  store.filter (fun r => ¬ (r.Source = portal.Source ∧ r.Target = portal.Target))
    ++ [{ id := newId, Source := portal.Source, Target := portal.Target,
          Size := portal.Size, Expires := portal.Expires }]

/-- `AddPortal`: the store afterwards and the way the call ends.  The error of
`db.GetDb()` is returned.  After `q, err := db.Query(...)` the function runs
`defer q.Close()` without looking at `err` (lines 173-176): when the query
fails `q` is nil and the deferred `Close` dereferences it, so the call panics. -/
def AddPortal (store : List Portal) (portal : Portal) (conn : Conn) (newId : Int) :
    List Portal × Outcome :=
  match conn with
  | Conn.getDbFails err => (store, Outcome.returned (some err))
  | Conn.queryFails _ => (store, Outcome.panicked)
  | Conn.up => (replaceInto store portal newId, Outcome.returned none)

/-- `deletePortal`: the store afterwards and the way the call ends.  When
`db.GetDb()` fails the function returns `nil` (line 182).  After
`q, err := db.Query(...)` it runs `defer q.Close()` without looking at `err`
(lines 185-188): when the query fails `q` is nil and the deferred `Close`
dereferences it, so the call panics.  `DELETE FROM portals WHERE id = ?`
removes the rows carrying the identifier. -/
def deletePortal (store : List Portal) (portal : Portal) (conn : Conn) :
    List Portal × Outcome :=
  match conn with
  | Conn.getDbFails _ => (store, Outcome.returned none)
  | Conn.queryFails _ => (store, Outcome.panicked)
  | Conn.up => (store.filter (fun r => ¬ (r.id = portal.id)), Outcome.returned none)

/-- What a call of `CleanupExpiredPortals` leaves behind: the store, the value
of the variable `err` (what the call returns when it returns), whether the call
ended in a panic instead of returning, the portals handed to `deletePortal` in
call order, and the errors written by `log.Printf`. -/
structure Sweep where
  store : List Portal
  err : Option Error
  panicked : Bool
  attempted : List Portal
  logged : List Error
deriving DecidableEq, Repr

/-- The first loop of `CleanupExpiredPortals` (lines 201-205). -/
def selectExpired (now : Int) (portals : List Portal) : List Portal :=
  portals.foldl (fun toDelete p => if p.Expires < now then toDelete ++ [p] else toDelete) []

/-- The second loop of `CleanupExpiredPortals` (lines 207-212).  `conns k` is the
behaviour of the collaborator during the `k`-th call of `deletePortal`; `k` is
the number of calls made so far.  A panic of `deletePortal` is not recovered and
ends the loop; a returned error is assigned to `err` and logged when not nil. -/
def deleteLoop (conns : Nat → Conn) : Nat → List Portal → Sweep → Sweep
  | _, [], s => s
  | k, p :: rest, s =>
    match deletePortal s.store p (conns k) with
    | (store, Outcome.panicked) =>
      { store := store, err := s.err, panicked := true,
        attempted := s.attempted ++ [p], logged := s.logged }
    | (store, Outcome.returned err) =>
      deleteLoop conns (k + 1) rest
        { store := store, err := err, panicked := s.panicked,
          attempted := s.attempted ++ [p],
          logged := match err with
            | some e => s.logged ++ [e]
            | none => s.logged }

/-- `CleanupExpiredPortals` at invocation time `now`. -/
def CleanupExpiredPortals (store : List Portal) (now : Int) (fault : Option Error)
    (conns : Nat → Conn) : Sweep :=
  match GetPortals store fault with
  | (_, some err) =>
    { store := store, err := some err, panicked := false, attempted := [], logged := [] }
  | (portals, none) =>
    deleteLoop conns 0 (selectExpired now portals)
      { store := store, err := none, panicked := false, attempted := [], logged := [] }

/-! ## The colour rule of the specification -/

/-- The colour rule as the specification words it: `blue` for the tag
`SAFEAREA`; otherwise, on the segments of the tag split at `_`, `road` when the
first segment is `TUNNEL`, the lower-cased second segment when the first is
`OPENPVP`, and the empty string for any other first segment. -/
def specColor (tbl : Char → Char) (typ : String) : String :=
  if typ = "SAFEAREA" then "blue"
  else
    let segments := Split typ '_'
    if segments.head? = some "TUNNEL" then "road"
    else if segments.head? = some "OPENPVP" then ToLower tbl (segments.getD 1 "")
    else ""

/-! ## Lemmas on the string functions -/

theorem splitAux_ne_nil (sep : Char) (cs acc : List Char) : splitAux sep cs acc ≠ [] := by
  induction cs generalizing acc with
  | nil => simp [splitAux]
  | cons c cs ih =>
    unfold splitAux
    split
    · simp
    · exact ih _

theorem splitAux_no_sep (sep : Char) (cs acc : List Char) (h : sep ∉ cs) :
    splitAux sep cs acc = [String.mk (acc.reverse ++ cs)] := by
  induction cs generalizing acc with
  | nil => simp [splitAux]
  | cons c cs ih =>
    have hc : ¬ c = sep := fun e => h (by simp [e])
    have hcs : sep ∉ cs := fun e => h (by simp [e])
    simp [splitAux, hc, ih _ hcs]

theorem splitAux_sep (sep : Char) (cs rest acc : List Char) (h : sep ∉ cs) :
    splitAux sep (cs ++ sep :: rest) acc
      = String.mk (acc.reverse ++ cs) :: splitAux sep rest [] := by
  induction cs generalizing acc with
  | nil => simp [splitAux]
  | cons c cs ih =>
    have hc : ¬ c = sep := fun e => h (by simp [e])
    have hcs : sep ∉ cs := fun e => h (by simp [e])
    simp [splitAux, hc, ih _ hcs]

theorem Split_head_exists (s : String) (sep : Char) :
    ∃ p0 rest, Split s sep = p0 :: rest := by
  cases h : Split s sep with
  | nil => exact absurd h (splitAux_ne_nil sep s.data [])
  | cons p0 rest => exact ⟨p0, rest, rfl⟩

/-! ## Lemmas on the loops of `LoadZones` -/

theorem foldl_append_singleton {α β : Type} (f : α → β) (l : List α) (acc : List β) :
    l.foldl (fun acc a => acc ++ [f a]) acc = acc ++ l.map f := by
  induction l generalizing acc with
  | nil => simp
  | cons a l ih => simp [ih]

theorem loadMarkers_eq_map (markers : List mapMarker) :
    loadMarkers markers = markers.map markerName := by
  simp [loadMarkers, foldl_append_singleton]

theorem loadZone_some (tbl : Char → Char) (d : dataZone) (z : Zone)
    (h : loadZone tbl d = some z) :
    deriveColor tbl d.Typ = some z.Color ∧ z.Name = d.Name ∧ z.Typ = d.Typ
      ∧ z.Markers = loadMarkers d.Markers ∧ z.Resources = loadResources d.Resources := by
  unfold loadZone at h
  split at h
  · exact absurd h (by simp)
  · rename_i color hc
    simp only [Option.some.injEq] at h
    subst h
    exact ⟨hc, rfl, rfl, rfl, rfl⟩

theorem loadLoop_returned (tbl : Char → Char) (zones : List Zone) (raw : List dataZone)
    (zs : List Zone) (err : Option Error)
    (h : loadLoop tbl zones raw = (zs, LoadOutcome.returned err)) :
    err = none ∧ ∃ new, zs = zones ++ new ∧ raw.map (loadZone tbl) = new.map some := by
  induction raw generalizing zones with
  | nil =>
    simp only [loadLoop, Prod.mk.injEq, LoadOutcome.returned.injEq] at h
    exact ⟨h.2.symm, [], by simp [h.1], rfl⟩
  | cons d rest ih =>
    unfold loadLoop at h
    split at h
    · simp at h
    · rename_i zone hz
      obtain ⟨he, new, hzs, hmap⟩ := ih _ h
      exact ⟨he, zone :: new, by simp [hzs], by simp [hz, hmap]⟩

theorem loadLoop_complete (tbl : Char → Char) (zones : List Zone) (raw : List dataZone)
    (new : List Zone) (h : raw.map (loadZone tbl) = new.map some) :
    loadLoop tbl zones raw = (zones ++ new, LoadOutcome.returned none) := by
  induction raw generalizing zones new with
  | nil =>
    cases new with
    | nil => simp [loadLoop]
    | cons a l => simp at h
  | cons d rest ih =>
    cases new with
    | nil => simp at h
    | cons a l =>
      simp only [List.map_cons, List.cons.injEq] at h
      simp [loadLoop, h.1, ih _ _ h.2]

/-! ## Portal validation -/

theorem zoneNameInZones_iff (name : String) (zones : List Zone) :
    zoneNameInZones name zones = true ↔ ∃ z ∈ zones, z.Name = name := by
  induction zones with
  | nil => simp [zoneNameInZones]
  | cons z zones ih =>
    unfold zoneNameInZones
    by_cases h : z.Name = name
    · simp [h]
    · simp [h, ih]

/-- C1: for every catalog and every portal, `IsValidPortal` returns `(true, nil)`
exactly when the size is 2, 7 or 20 and both the source and the target are the
name of a zone of the catalog, and `(false, nil)` in every other case; the
returned error is always nil, and swapping source and target leaves the result
unchanged. -/
theorem IsValidPortal_spec (zones : List Zone) (p : Portal) :
    (IsValidPortal zones p = (true, none) ↔
        ((p.Size = 2 ∨ p.Size = 7 ∨ p.Size = 20)
          ∧ (∃ z ∈ zones, z.Name = p.Source) ∧ (∃ z ∈ zones, z.Name = p.Target)))
      ∧ (¬ ((p.Size = 2 ∨ p.Size = 7 ∨ p.Size = 20)
          ∧ (∃ z ∈ zones, z.Name = p.Source) ∧ (∃ z ∈ zones, z.Name = p.Target))
        → IsValidPortal zones p = (false, none))
      ∧ (IsValidPortal zones p).2 = none
      ∧ IsValidPortal zones { p with Source := p.Target, Target := p.Source }
          = IsValidPortal zones p := by
  have key : ∀ q : Portal, IsValidPortal zones q
      = (decide (q.Size = 2 ∨ q.Size = 7 ∨ q.Size = 20)
          && (zoneNameInZones q.Source zones && zoneNameInZones q.Target zones), none) := by
    intro q
    unfold IsValidPortal GetZones
    by_cases hs : q.Size = 2 ∨ q.Size = 7 ∨ q.Size = 20
    · simp [hs]
    · simp [hs]
  have hiff : IsValidPortal zones p = (true, none) ↔
      ((p.Size = 2 ∨ p.Size = 7 ∨ p.Size = 20)
        ∧ (∃ z ∈ zones, z.Name = p.Source) ∧ (∃ z ∈ zones, z.Name = p.Target)) := by
    rw [key p, ← zoneNameInZones_iff, ← zoneNameInZones_iff]
    simp
  refine ⟨hiff, ?_, ?_, ?_⟩
  · intro hn
    have h1 : ¬ IsValidPortal zones p = (true, none) := fun h => hn (hiff.mp h)
    rw [key p] at h1 ⊢
    cases hb : (decide (p.Size = 2 ∨ p.Size = 7 ∨ p.Size = 20)
        && (zoneNameInZones p.Source zones && zoneNameInZones p.Target zones))
    · rfl
    · rw [hb] at h1
      exact absurd rfl h1
  · rw [key p]
  · rw [key, key p]
    simp only [Prod.mk.injEq, and_true]
    rw [Bool.and_comm (zoneNameInZones p.Target zones)]

/-! ## Colour derivation -/

theorem deriveColor_of_split (tbl : Char → Char) (typ p0 : String) (rest : List String)
    (hs : ¬ typ = "SAFEAREA") (h : Split typ '_' = p0 :: rest) :
    deriveColor tbl typ =
      if p0 = "OPENPVP" then (rest.head?).map (ToLower tbl)
      else some (if p0 = "TUNNEL" then "road" else "") := by
  unfold deriveColor
  simp only [hs, if_false, h, List.getElem?_cons_zero]
  by_cases h0 : p0 = "OPENPVP"
  · cases rest <;> simp [h0]
  · simp [h0]

theorem deriveColor_some_eq_specColor (tbl : Char → Char) (typ c : String)
    (h : deriveColor tbl typ = some c) : c = specColor tbl typ := by
  by_cases hs : typ = "SAFEAREA"
  · simp [deriveColor, hs] at h
    simp [specColor, hs, h]
  · obtain ⟨p0, rest, hsp⟩ := Split_head_exists typ '_'
    rw [deriveColor_of_split tbl typ p0 rest hs hsp] at h
    unfold specColor
    simp only [hs, if_false, hsp, List.head?_cons, Option.some.injEq]
    by_cases h0 : p0 = "OPENPVP"
    · subst h0
      cases rest with
      | nil => simp at h
      | cons p1 tl =>
        simp at h
        simp [h]
    · by_cases ht : p0 = "TUNNEL"
      · simp [ht] at h ⊢
        exact h.symm
      · simp [h0, ht] at h ⊢
        exact h.symm

theorem splitAux_singleton (sep : Char) (cs acc : List Char) (x : String)
    (h : splitAux sep cs acc = [x]) : x = String.mk (acc.reverse ++ cs) := by
  induction cs generalizing acc with
  | nil =>
    simp [splitAux] at h
    simp [← h]
  | cons c cs ih =>
    unfold splitAux at h
    split at h
    · simp only [List.cons.injEq] at h
      exact absurd h.2 (splitAux_ne_nil sep cs [])
    · have := ih _ h
      simpa using this

theorem deriveColor_OPENPVP (tbl : Char → Char) : deriveColor tbl "OPENPVP" = none := by
  have h : Split "OPENPVP" '_' = ["OPENPVP"] := by decide
  rw [deriveColor_of_split tbl "OPENPVP" "OPENPVP" [] (by decide) h]
  simp

theorem deriveColor_eq_none_iff (tbl : Char → Char) (typ : String) :
    deriveColor tbl typ = none ↔ typ = "OPENPVP" := by
  constructor
  · intro h
    by_cases hs : typ = "SAFEAREA"
    · simp [deriveColor, hs] at h
    · obtain ⟨p0, rest, hsp⟩ := Split_head_exists typ '_'
      rw [deriveColor_of_split tbl typ p0 rest hs hsp] at h
      by_cases h0 : p0 = "OPENPVP"
      · cases rest with
        | nil =>
          have := splitAux_singleton '_' typ.data [] p0 hsp
          simp at this
          rw [← h0, this]
        | cons p1 tl => simp [h0] at h
      · simp [h0] at h
  · intro h
    rw [h]
    exact deriveColor_OPENPVP tbl

theorem openpvp_data (X : String) :
    ("OPENPVP_" ++ X).data = "OPENPVP".data ++ '_' :: X.data := by
  rw [String.data_append]
  rfl

theorem openpvp_ne_safearea (X : String) : ¬ "OPENPVP_" ++ X = "SAFEAREA" := by
  intro h
  have h2 := congrArg String.data h
  rw [openpvp_data] at h2
  have h3 : some 'O' = some 'S' := congrArg List.head? h2
  exact absurd h3 (by decide)

theorem Split_openpvp (X : String) :
    Split ("OPENPVP_" ++ X) '_' = "OPENPVP" :: Split X '_' := by
  unfold Split
  rw [openpvp_data, splitAux_sep '_' "OPENPVP".data X.data [] (by decide)]
  rfl

theorem deriveColor_openpvp (tbl : Char → Char) (X : String) :
    deriveColor tbl ("OPENPVP_" ++ X) = ((Split X '_').head?).map (ToLower tbl) := by
  rw [deriveColor_of_split tbl _ "OPENPVP" (Split X '_') (openpvp_ne_safearea X)
    (Split_openpvp X)]
  simp

theorem Split_head_no_sep (X : String) (h : '_' ∉ X.data) : (Split X '_').head? = some X := by
  unfold Split
  rw [splitAux_no_sep '_' X.data [] h]
  simp

theorem Split_head_sep (X rest : String) (h : '_' ∉ X.data) :
    (Split (X ++ "_" ++ rest) '_').head? = some X := by
  unfold Split
  have hd : (X ++ "_" ++ rest).data = X.data ++ '_' :: rest.data := by
    rw [String.data_append, String.data_append]
    simp
  rw [hd, splitAux_sep '_' X.data rest.data [] h]
  simp

/-- C2: on every zone descriptor for which the colour derivation of `LoadZones`
completes, the colour of the loaded zone is the value of the reference rule
`specColor` on the type tag; and for a tag `OPENPVP_<X>` or `OPENPVP_<X>_...`
(with no `_` inside `X`) the derivation completes with the lower-cased `X`. -/
theorem loadZone_color_eq_specColor (tbl : Char → Char) (d : dataZone) (z : Zone)
    (h : loadZone tbl d = some z) :
    z.Color = specColor tbl d.Typ
      ∧ (∀ X : String, '_' ∉ X.data →
          deriveColor tbl ("OPENPVP_" ++ X) = some (ToLower tbl X))
      ∧ (∀ X rest : String, '_' ∉ X.data →
          deriveColor tbl ("OPENPVP_" ++ (X ++ "_" ++ rest)) = some (ToLower tbl X)) := by
  refine ⟨deriveColor_some_eq_specColor tbl d.Typ z.Color (loadZone_some tbl d z h).1, ?_, ?_⟩
  · intro X hX
    rw [deriveColor_openpvp, Split_head_no_sep X hX]
    rfl
  · intro X rest hX
    rw [deriveColor_openpvp, Split_head_sep X rest hX]
    rfl

/-- Witness for C2: the descriptor `Z1` of type `OPENPVP_RED_2` loads with the
colour `red`, the value of `specColor`. -/
theorem loadZone_color_eq_specColor_witness :
    loadZone noCaseTable ⟨"Z1", "OPENPVP_RED_2", [], []⟩
        = some ⟨"Z1", "red", "OPENPVP_RED_2", [], []⟩
      ∧ "red" = specColor noCaseTable "OPENPVP_RED_2" :=
  ⟨by decide,
   (loadZone_color_eq_specColor noCaseTable ⟨"Z1", "OPENPVP_RED_2", [], []⟩
      ⟨"Z1", "red", "OPENPVP_RED_2", [], []⟩ (by decide)).1⟩

/-- C3, at the failing input: for the type tag `OPENPVP` (first segment
`OPENPVP`, no second segment) the index expression `parts[1]` is out of range,
so a snapshot holding one descriptor of that type parses and makes `LoadZones`
panic; `OPENPVP` is the only tag on which the derivation does not complete, and
the empty tag yields the empty colour. -/
theorem LoadZones_panics_on_OPENPVP (tbl : Char → Char) (zones : List Zone) :
    deriveColor tbl "OPENPVP" = none
      ∧ LoadZones tbl zones (Except.ok [⟨"Z", "OPENPVP", [], []⟩]) = (zones, LoadOutcome.panicked)
      ∧ (∀ typ : String, deriveColor tbl typ = none ↔ typ = "OPENPVP")
      ∧ deriveColor tbl "" = some "" := by
  refine ⟨deriveColor_OPENPVP tbl, ?_, deriveColor_eq_none_iff tbl, ?_⟩
  · simp [LoadZones, loadLoop, loadZone, deriveColor_OPENPVP]
  · rw [deriveColor_of_split tbl "" "" [] (by decide) (by decide)]
    simp

/-! ## Marker renaming -/

/-- C9: the markers of a loaded zone are the markers of its descriptor, in the
same order and number, each raw type replaced by its `markerMapping` entry when
it is a key and kept unchanged otherwise. -/
theorem loadZone_markers (tbl : Char → Char) (d : dataZone) (z : Zone)
    (h : loadZone tbl d = some z) :
    z.Markers.length = d.Markers.length
      ∧ ∀ (i : Nat) (m : mapMarker), d.Markers[i]? = some m →
          (∀ v, markerMapping.lookup m.Typ = some v → z.Markers[i]? = some v)
          ∧ (markerMapping.lookup m.Typ = none → z.Markers[i]? = some m.Typ) := by
  have hm : z.Markers = d.Markers.map markerName := by
    rw [(loadZone_some tbl d z h).2.2.2.1, loadMarkers_eq_map]
  refine ⟨by simp [hm], ?_⟩
  intro i m hi
  have hz : z.Markers[i]? = some (markerName m) := by
    rw [hm, List.getElem?_map, hi]
    rfl
  constructor
  · intro v hv
    rw [hz]
    simp [markerName, hv]
  · intro hv
    rw [hz]
    simp [markerName, hv]

/-- Witness for C9: a mapped marker, an unmapped one and a repeated mapped one. -/
theorem loadZone_markers_witness :
    loadZone noCaseTable
        ⟨"Z", "TUNNEL_ROYAL", [], [⟨"roads_of_avalon_solo_pve"⟩, ⟨"chest"⟩,
          ⟨"roads_of_avalon_solo_pve"⟩]⟩
        = some ⟨"Z", "road", "TUNNEL_ROYAL",
            ["Solo PvE content", "chest", "Solo PvE content"], []⟩
      ∧ ["Solo PvE content", "chest", "Solo PvE content"].length
          = [(⟨"roads_of_avalon_solo_pve"⟩ : mapMarker), ⟨"chest"⟩,
              ⟨"roads_of_avalon_solo_pve"⟩].length :=
  ⟨by decide,
   (loadZone_markers noCaseTable
      ⟨"Z", "TUNNEL_ROYAL", [], [⟨"roads_of_avalon_solo_pve"⟩, ⟨"chest"⟩,
        ⟨"roads_of_avalon_solo_pve"⟩]⟩
      ⟨"Z", "road", "TUNNEL_ROYAL", ["Solo PvE content", "chest", "Solo PvE content"], []⟩
      (by decide)).1⟩

/-! ## The catalog after `LoadZones` -/

theorem loadZone_ne_none (tbl : Char → Char) (d : dataZone)
    (h : deriveColor tbl d.Typ ≠ none) : ∃ z, loadZone tbl d = some z := by
  unfold loadZone
  cases hc : deriveColor tbl d.Typ with
  | none => exact absurd hc h
  | some c => exact ⟨_, rfl⟩

theorem map_eq_map_some_filterMap {α β : Type} (f : α → Option β) (l : List α)
    (h : ∀ a ∈ l, ∃ b, f a = some b) : l.map f = (l.filterMap f).map some := by
  induction l with
  | nil => rfl
  | cons a l ih =>
    obtain ⟨b, hb⟩ := h a (by simp)
    have := ih (fun x hx => h x (by simp [hx]))
    simp [List.filterMap_cons, hb, this]

/-- C7, counterexample: loading the one-zone snapshot `Bridgewatch` a second time
leaves two zones in the catalog, the zone of the first load still among them,
where a single load leaves one. -/
theorem LoadZones_twice_keeps_earlier_zones :
    GetZones (LoadZones noCaseTable [] (Except.ok [⟨"Bridgewatch", "SAFEAREA", [], []⟩])).1
        = [⟨"Bridgewatch", "blue", "SAFEAREA", [], []⟩]
      ∧ GetZones (LoadZones noCaseTable
            (LoadZones noCaseTable [] (Except.ok [⟨"Bridgewatch", "SAFEAREA", [], []⟩])).1
            (Except.ok [⟨"Bridgewatch", "SAFEAREA", [], []⟩])).1
        = [⟨"Bridgewatch", "blue", "SAFEAREA", [], []⟩,
           ⟨"Bridgewatch", "blue", "SAFEAREA", [], []⟩] := by
  decide

/-- C7, amended: for every prior catalog and every parsed snapshot on which all
colour derivations complete, `LoadZones` returns nil and leaves the prior
catalog followed by the transformed zones of the snapshot, one per descriptor,
in snapshot order, each with the name and type of its descriptor; loaded into
the empty catalog of program start, `GetZones` is exactly that sequence. -/
theorem LoadZones_appends_transformed (tbl : Char → Char) (zones0 : List Zone)
    (raw : List dataZone) (hc : ∀ d ∈ raw, deriveColor tbl d.Typ ≠ none) :
    LoadZones tbl zones0 (Except.ok raw)
        = (zones0 ++ raw.filterMap (loadZone tbl), LoadOutcome.returned none)
      ∧ GetZones (LoadZones tbl [] (Except.ok raw)).1 = raw.filterMap (loadZone tbl)
      ∧ (raw.filterMap (loadZone tbl)).length = raw.length
      ∧ ∀ (i : Nat) (d : dataZone), raw[i]? = some d →
          ∃ z, (raw.filterMap (loadZone tbl))[i]? = some z ∧ loadZone tbl d = some z
            ∧ z.Name = d.Name ∧ z.Typ = d.Typ := by
  have hmap : raw.map (loadZone tbl) = (raw.filterMap (loadZone tbl)).map some :=
    map_eq_map_some_filterMap _ _ (fun d hd => loadZone_ne_none tbl d (hc d hd))
  have hrun : ∀ zs, LoadZones tbl zs (Except.ok raw)
      = (zs ++ raw.filterMap (loadZone tbl), LoadOutcome.returned none) :=
    fun zs => loadLoop_complete tbl zs raw _ hmap
  refine ⟨hrun zones0, ?_, ?_, ?_⟩
  · rw [hrun []]
    simp [GetZones]
  · have := congrArg List.length hmap
    simpa using this.symm
  · intro i d hi
    have h1 := congrArg (fun l => l[i]?) hmap
    simp only [List.getElem?_map, hi, Option.map_some'] at h1
    cases hz : (raw.filterMap (loadZone tbl))[i]? with
    | none => simp [hz] at h1
    | some z =>
      simp only [hz, Option.map_some', Option.some.injEq] at h1
      obtain ⟨-, hn, ht, -, -⟩ := loadZone_some tbl d z h1
      exact ⟨z, rfl, h1, hn, ht⟩

/-- Witness for C7 (amended): a prior catalog of one zone and a snapshot of two
descriptors. -/
theorem LoadZones_appends_transformed_witness :
    (∀ d ∈ [(⟨"A", "TUNNEL_LOW", [], []⟩ : dataZone), ⟨"B", "OPENPVP_RED", [], []⟩],
        deriveColor noCaseTable d.Typ ≠ none)
      ∧ LoadZones noCaseTable [⟨"Old", "", "X", [], []⟩]
          (Except.ok [⟨"A", "TUNNEL_LOW", [], []⟩, ⟨"B", "OPENPVP_RED", [], []⟩])
        = ([⟨"Old", "", "X", [], []⟩]
            ++ [(⟨"A", "TUNNEL_LOW", [], []⟩ : dataZone), ⟨"B", "OPENPVP_RED", [], []⟩].filterMap
                (loadZone noCaseTable),
           LoadOutcome.returned none) :=
  ⟨by decide,
   (LoadZones_appends_transformed noCaseTable [⟨"Old", "", "X", [], []⟩]
      [⟨"A", "TUNNEL_LOW", [], []⟩, ⟨"B", "OPENPVP_RED", [], []⟩] (by decide)).1⟩

/-! ## Colours of the loaded zones -/

theorem deriveColor_cases (tbl : Char → Char) (typ c : String)
    (h : deriveColor tbl typ = some c) :
    c = "blue" ∨ c = "road" ∨ c = ""
      ∨ ∃ seg rest, Split typ '_' = "OPENPVP" :: seg :: rest ∧ c = ToLower tbl seg := by
  by_cases hs : typ = "SAFEAREA"
  · simp [deriveColor, hs] at h
    exact Or.inl h.symm
  · obtain ⟨p0, rest, hsp⟩ := Split_head_exists typ '_'
    rw [deriveColor_of_split tbl typ p0 rest hs hsp] at h
    by_cases h0 : p0 = "OPENPVP"
    · subst h0
      cases rest with
      | nil => simp at h
      | cons p1 tl =>
        simp at h
        exact Or.inr (Or.inr (Or.inr ⟨p1, tl, hsp, h.symm⟩))
    · by_cases ht : p0 = "TUNNEL"
      · simp [ht] at h
        exact Or.inr (Or.inl h.symm)
      · simp [h0, ht] at h
        exact Or.inr (Or.inr (Or.inl h.symm))

/-- C8, counterexample: the snapshot with one zone of type `OPENPVP_GREEN` loads,
and its zone has the colour `green`, which is neither in `validColors` nor
empty. -/
theorem LoadZones_color_outside_validColors :
    LoadZones noCaseTable [] (Except.ok [⟨"Z", "OPENPVP_GREEN", [], []⟩])
        = ([⟨"Z", "green", "OPENPVP_GREEN", [], []⟩], LoadOutcome.returned none)
      ∧ "green" ∉ validColors ++ [""] := by
  decide

/-- C8, amended: every zone that a completed `LoadZones` adds to the catalog has
the colour `blue`, `road`, the empty string, or the lower-cased second segment
of its `OPENPVP_...` type tag; so every colour of the resulting catalog is in
`validColors` or empty whenever the lower-cased second segment of every
`OPENPVP_...` tag of the snapshot is, and the colours of the prior catalog
(empty at program start) are. -/
theorem LoadZones_colors (tbl : Char → Char) (zones0 : List Zone) (raw : List dataZone)
    (zs : List Zone)
    (h : LoadZones tbl zones0 (Except.ok raw) = (zs, LoadOutcome.returned none)) :
    ∃ new : List Zone, zs = zones0 ++ new
      ∧ (∀ z ∈ new, z.Color = "blue" ∨ z.Color = "road" ∨ z.Color = ""
          ∨ ∃ seg rest, Split z.Typ '_' = "OPENPVP" :: seg :: rest
              ∧ z.Color = ToLower tbl seg)
      ∧ ((∀ d ∈ raw, ∀ seg rest, Split d.Typ '_' = "OPENPVP" :: seg :: rest →
            ToLower tbl seg ∈ validColors ++ [""])
          → (∀ z ∈ zones0, z.Color ∈ validColors ++ [""])
          → ∀ z ∈ zs, z.Color ∈ validColors ++ [""]) := by
  obtain ⟨-, new, hzs, hmap⟩ := loadLoop_returned tbl zones0 raw zs none h
  have hfrom : ∀ z ∈ new, ∃ d ∈ raw, loadZone tbl d = some z := by
    intro z hz
    have : some z ∈ raw.map (loadZone tbl) := by
      rw [hmap]
      exact List.mem_map_of_mem some hz
    obtain ⟨d, hd, hdz⟩ := List.mem_map.mp this
    exact ⟨d, hd, hdz⟩
  have hcase : ∀ z ∈ new, z.Color = "blue" ∨ z.Color = "road" ∨ z.Color = ""
      ∨ ∃ seg rest, Split z.Typ '_' = "OPENPVP" :: seg :: rest ∧ z.Color = ToLower tbl seg := by
    intro z hz
    obtain ⟨d, -, hdz⟩ := hfrom z hz
    obtain ⟨hc, -, ht, -, -⟩ := loadZone_some tbl d z hdz
    rw [ht]
    exact deriveColor_cases tbl d.Typ z.Color hc
  refine ⟨new, hzs, hcase, ?_⟩
  intro hraw h0 z hz
  rw [hzs] at hz
  rcases List.mem_append.mp hz with hold | hnew
  · exact h0 z hold
  · obtain ⟨d, hd, hdz⟩ := hfrom z hnew
    obtain ⟨-, -, ht, -, -⟩ := loadZone_some tbl d z hdz
    rcases hcase z hnew with hb | hr | he | ⟨seg, rest, hsp, hcol⟩
    · rw [hb]; decide
    · rw [hr]; decide
    · rw [he]; decide
    · rw [hcol]
      exact hraw d hd seg rest (ht ▸ hsp)

/-- Witness for C8 (amended): a snapshot with a safe area, a road and a red
zone, loaded into the empty catalog. -/
theorem LoadZones_colors_witness :
    LoadZones noCaseTable []
        (Except.ok [⟨"A", "SAFEAREA", [], []⟩, ⟨"B", "TUNNEL_LOW", [], []⟩,
          ⟨"C", "OPENPVP_RED", [], []⟩])
        = ([⟨"A", "blue", "SAFEAREA", [], []⟩, ⟨"B", "road", "TUNNEL_LOW", [], []⟩,
            ⟨"C", "red", "OPENPVP_RED", [], []⟩], LoadOutcome.returned none)
      ∧ ∃ new : List Zone,
          [(⟨"A", "blue", "SAFEAREA", [], []⟩ : Zone), ⟨"B", "road", "TUNNEL_LOW", [], []⟩,
            ⟨"C", "red", "OPENPVP_RED", [], []⟩] = [] ++ new
          ∧ (∀ z ∈ new, z.Color = "blue" ∨ z.Color = "road" ∨ z.Color = ""
              ∨ ∃ seg rest, Split z.Typ '_' = "OPENPVP" :: seg :: rest
                  ∧ z.Color = ToLower noCaseTable seg)
          ∧ ((∀ d ∈ [(⟨"A", "SAFEAREA", [], []⟩ : dataZone), ⟨"B", "TUNNEL_LOW", [], []⟩,
                  ⟨"C", "OPENPVP_RED", [], []⟩],
                ∀ seg rest, Split d.Typ '_' = "OPENPVP" :: seg :: rest →
                  ToLower noCaseTable seg ∈ validColors ++ [""])
              → (∀ z ∈ ([] : List Zone), z.Color ∈ validColors ++ [""])
              → ∀ z ∈ [(⟨"A", "blue", "SAFEAREA", [], []⟩ : Zone),
                    ⟨"B", "road", "TUNNEL_LOW", [], []⟩, ⟨"C", "red", "OPENPVP_RED", [], []⟩],
                  z.Color ∈ validColors ++ [""]) :=
  ⟨by decide,
   LoadZones_colors noCaseTable []
      [⟨"A", "SAFEAREA", [], []⟩, ⟨"B", "TUNNEL_LOW", [], []⟩, ⟨"C", "OPENPVP_RED", [], []⟩]
      [⟨"A", "blue", "SAFEAREA", [], []⟩, ⟨"B", "road", "TUNNEL_LOW", [], []⟩,
        ⟨"C", "red", "OPENPVP_RED", [], []⟩] (by decide)⟩

/-! ## The expiry sweep -/

theorem selectExpired_eq_filter (now : Int) (portals : List Portal) :
    selectExpired now portals = portals.filter (fun p => p.Expires < now) := by
  have gen : ∀ (l acc : List Portal),
      l.foldl (fun toDelete p => if p.Expires < now then toDelete ++ [p] else toDelete) acc
        = acc ++ l.filter (fun p => p.Expires < now) := by
    intro l
    induction l with
    | nil => simp
    | cons p l ih =>
      intro acc
      by_cases hp : p.Expires < now
      · simp [List.filter_cons, hp, ih]
      · simp [List.filter_cons, hp, ih]
  simpa [selectExpired] using gen portals []

theorem deletePortal_outcome (store : List Portal) (p : Portal) (conn : Conn) :
    (deletePortal store p conn).2 = Outcome.returned none
      ∨ (deletePortal store p conn).2 = Outcome.panicked := by
  cases conn with
  | up => exact Or.inl rfl
  | getDbFails e => exact Or.inl rfl
  | queryFails e => exact Or.inr rfl

theorem deletePortal_store_subset (store : List Portal) (p : Portal) (conn : Conn) :
    ∀ r ∈ (deletePortal store p conn).1, r ∈ store := by
  intro r hr
  cases conn with
  | up => exact (List.mem_filter.mp hr).1
  | getDbFails e => exact hr
  | queryFails e => exact hr

theorem deleteLoop_cons_up (conns : Nat → Conn) (k : Nat) (p : Portal) (rest : List Portal)
    (s : Sweep) (h : conns k = Conn.up) :
    deleteLoop conns k (p :: rest) s
      = deleteLoop conns (k + 1) rest
          { store := s.store.filter (fun r => ¬ (r.id = p.id)), err := none,
            panicked := s.panicked, attempted := s.attempted ++ [p], logged := s.logged } := by
  simp [deleteLoop, deletePortal, h]

theorem deleteLoop_cons_getDbFails (conns : Nat → Conn) (k : Nat) (p : Portal)
    (rest : List Portal) (s : Sweep) (e : Error) (h : conns k = Conn.getDbFails e) :
    deleteLoop conns k (p :: rest) s
      = deleteLoop conns (k + 1) rest
          { store := s.store, err := none, panicked := s.panicked,
            attempted := s.attempted ++ [p], logged := s.logged } := by
  simp [deleteLoop, deletePortal, h]

theorem deleteLoop_cons_queryFails (conns : Nat → Conn) (k : Nat) (p : Portal)
    (rest : List Portal) (s : Sweep) (e : Error) (h : conns k = Conn.queryFails e) :
    deleteLoop conns k (p :: rest) s
      = { store := s.store, err := s.err, panicked := true,
          attempted := s.attempted ++ [p], logged := s.logged } := by
  simp [deleteLoop, deletePortal, h]

theorem deleteLoop_store_subset (conns : Nat → Conn) (l : List Portal) (k : Nat) (s : Sweep) :
    ∀ r ∈ (deleteLoop conns k l s).store, r ∈ s.store := by
  induction l generalizing k s with
  | nil => simp [deleteLoop]
  | cons p l ih =>
    intro r hr
    cases hc : conns k with
    | up =>
      rw [deleteLoop_cons_up conns k p l s hc] at hr
      have h2 := ih _ _ r hr
      exact (List.mem_filter.mp h2).1
    | getDbFails e =>
      rw [deleteLoop_cons_getDbFails conns k p l s e hc] at hr
      have h2 := ih _ _ r hr
      exact h2
    | queryFails e =>
      rw [deleteLoop_cons_queryFails conns k p l s e hc] at hr
      exact hr

/-- The sweep loop never holds a removal error: `deletePortal` returns nil or
panics, so `err` stays nil and nothing is logged. -/
theorem deleteLoop_err_none (conns : Nat → Conn) (l : List Portal) (k : Nat) (s : Sweep)
    (herr : s.err = none) :
    (deleteLoop conns k l s).err = none ∧ (deleteLoop conns k l s).logged = s.logged := by
  induction l generalizing k s with
  | nil => simp [deleteLoop, herr]
  | cons p l ih =>
    cases hc : conns k with
    | up =>
      rw [deleteLoop_cons_up conns k p l s hc]
      exact ih _ _ rfl
    | getDbFails e =>
      rw [deleteLoop_cons_getDbFails conns k p l s e hc]
      exact ih _ _ rfl
    | queryFails e =>
      rw [deleteLoop_cons_queryFails conns k p l s e hc]
      exact ⟨herr, rfl⟩

theorem deleteLoop_all_up (conns : Nat → Conn) (hup : ∀ k, conns k = Conn.up)
    (l : List Portal) (k : Nat) (s : Sweep) (herr : s.err = none) :
    (deleteLoop conns k l s).store = s.store.filter (fun r => ∀ p ∈ l, ¬ r.id = p.id)
      ∧ (deleteLoop conns k l s).err = none
      ∧ (deleteLoop conns k l s).panicked = s.panicked
      ∧ (deleteLoop conns k l s).logged = s.logged := by
  induction l generalizing k s with
  | nil => simp [deleteLoop, herr]
  | cons p l ih =>
    rw [deleteLoop_cons_up conns k p l s (hup k)]
    obtain ⟨h1, h2, h3, h4⟩ := ih (k + 1)
      { store := s.store.filter (fun r => ¬ (r.id = p.id)), err := none,
        panicked := s.panicked, attempted := s.attempted ++ [p], logged := s.logged } rfl
    refine ⟨?_, h2, h3, h4⟩
    rw [h1, List.filter_filter]
    apply List.filter_congr
    intro r _
    simp [Bool.and_comm]

/-- While no query fails the sweep loop reaches every portal of its list, does
not panic, and a portal whose own deletion succeeds leaves no record carrying
its identifier. -/
theorem deleteLoop_no_query_failure (conns : Nat → Conn)
    (hq : ∀ k e, conns k ≠ Conn.queryFails e) (l : List Portal) (k : Nat) (s : Sweep) :
    (deleteLoop conns k l s).attempted = s.attempted ++ l
      ∧ (deleteLoop conns k l s).panicked = s.panicked
      ∧ ∀ (j : Nat) (p : Portal), l[j]? = some p → conns (k + j) = Conn.up →
          ∀ r ∈ (deleteLoop conns k l s).store, r.id ≠ p.id := by
  induction l generalizing k s with
  | nil => simp [deleteLoop]
  | cons q l ih =>
    have step : ∃ s2 : Sweep, deleteLoop conns k (q :: l) s = deleteLoop conns (k + 1) l s2
        ∧ s2.attempted = s.attempted ++ [q] ∧ s2.panicked = s.panicked
        ∧ (conns k = Conn.up → ∀ r ∈ s2.store, r.id ≠ q.id) := by
      cases hc : conns k with
      | up =>
        refine ⟨_, deleteLoop_cons_up conns k q l s hc, rfl, rfl, ?_⟩
        intro _ r hr
        simpa using (List.mem_filter.mp hr).2
      | getDbFails e =>
        exact ⟨_, deleteLoop_cons_getDbFails conns k q l s e hc, rfl, rfl,
          fun h => by simp at h⟩
      | queryFails e => exact absurd hc (hq k e)
    obtain ⟨s2, hs2, hatt, hpan, hdel⟩ := step
    obtain ⟨h1, h2, h3⟩ := ih (k + 1) s2
    rw [hs2]
    refine ⟨by rw [h1, hatt]; simp, by rw [h2, hpan], ?_⟩
    intro j p hj hup r hr
    cases j with
    | zero =>
      simp only [List.getElem?_cons_zero, Option.some.injEq] at hj
      subst hj
      exact hdel (by simpa using hup) r (deleteLoop_store_subset conns l (k + 1) s2 r hr)
    | succ j =>
      simp only [List.getElem?_cons_succ] at hj
      have hup2 : conns (k + 1 + j) = Conn.up := by
        rw [← hup]
        congr 1
        omega
      exact h3 j p hj hup2 r hr

/-- As long as no query fails during the sweep, every expired record is handed
to `deletePortal` in listing order, the call returns, and every expired record
whose own deletion succeeds is absent from the store afterwards. -/
theorem Cleanup_without_query_failure (store : List Portal) (now : Int)
    (conns : Nat → Conn) (hq : ∀ k e, conns k ≠ Conn.queryFails e) :
    (CleanupExpiredPortals store now none conns).attempted
        = store.filter (fun p => p.Expires < now)
      ∧ (CleanupExpiredPortals store now none conns).panicked = false
      ∧ ∀ (k : Nat) (p : Portal),
          (store.filter (fun p => p.Expires < now))[k]? = some p → conns k = Conn.up →
          ∀ r ∈ (CleanupExpiredPortals store now none conns).store, r.id ≠ p.id := by
  simp only [CleanupExpiredPortals, GetPortals]
  obtain ⟨h1, h2, h3⟩ := deleteLoop_no_query_failure conns hq (selectExpired now store) 0
    { store := store, err := none, panicked := false, attempted := [], logged := [] }
  refine ⟨by rw [h1, selectExpired_eq_filter]; rfl, h2, ?_⟩
  intro k p hk hup
  rw [← selectExpired_eq_filter] at hk
  exact h3 k p hk (by simpa using hup)

/-- C4: with the store a collection of records with distinct identifiers that
the listing returns, and every deletion succeeding, `CleanupExpiredPortals`
returns, leaves exactly the records whose `Expires` is not before `now` (a
record expiring at `now` survives, every record expiring before `now` is gone)
and returns nil; on the empty store it changes nothing and returns nil. -/
theorem Cleanup_removes_exactly_expired (store : List Portal) (now : Int)
    (conns : Nat → Conn) (hid : (store.map Portal.id).Nodup)
    (hup : ∀ k, conns k = Conn.up) :
    (CleanupExpiredPortals store now none conns).store
        = store.filter (fun p => ¬ p.Expires < now)
      ∧ (CleanupExpiredPortals store now none conns).err = none
      ∧ (∀ p ∈ store, p.Expires = now →
          p ∈ (CleanupExpiredPortals store now none conns).store)
      ∧ (∀ p ∈ store, p.Expires < now →
          p ∉ (CleanupExpiredPortals store now none conns).store)
      ∧ (CleanupExpiredPortals [] now none conns).store = []
      ∧ (CleanupExpiredPortals [] now none conns).err = none
      ∧ (CleanupExpiredPortals store now none conns).panicked = false
      ∧ (CleanupExpiredPortals [] now none conns).panicked = false := by
  have hrun : ∀ st : List Portal, (st.map Portal.id).Nodup →
      (CleanupExpiredPortals st now none conns).store
          = st.filter (fun p => ¬ p.Expires < now)
        ∧ (CleanupExpiredPortals st now none conns).err = none
        ∧ (CleanupExpiredPortals st now none conns).panicked = false := by
    intro st hst
    simp only [CleanupExpiredPortals, GetPortals]
    obtain ⟨h1, h2, h3, -⟩ := deleteLoop_all_up conns hup (selectExpired now st) 0
      { store := st, err := none, panicked := false, attempted := [], logged := [] } rfl
    refine ⟨?_, h2, h3⟩
    rw [h1, selectExpired_eq_filter]
    apply List.filter_congr
    intro r hr
    simp only [List.mem_filter, decide_eq_true_eq, and_imp, Bool.decide_eq_true,
      decide_eq_decide]
    constructor
    · intro hall hlt
      exact hall r hr hlt rfl
    · intro hge q hq hqlt hidq
      have := List.inj_on_of_nodup_map hst hr hq hidq
      rw [this] at hge
      exact hge hqlt
  obtain ⟨hs, he, hp⟩ := hrun store hid
  obtain ⟨hs0, he0, hp0⟩ := hrun [] (by simp)
  refine ⟨hs, he, ?_, ?_, by simpa using hs0, he0, hp, hp0⟩
  · intro p hp heq
    rw [hs]
    exact List.mem_filter.mpr ⟨hp, by simp [heq]⟩
  · intro p _ hlt
    rw [hs]
    intro hmem
    have := (List.mem_filter.mp hmem).2
    simp [hlt] at this

/-- Witness for C4: three records, expiring before, at and after `now = 10`. -/
theorem Cleanup_removes_exactly_expired_witness :
    (([⟨1, "A", "B", 2, 5⟩, ⟨2, "B", "C", 7, 10⟩, ⟨3, "C", "D", 20, 15⟩] :
          List Portal).map Portal.id).Nodup
      ∧ (∀ k : Nat, (fun _ => Conn.up) k = Conn.up)
      ∧ (CleanupExpiredPortals
            [⟨1, "A", "B", 2, 5⟩, ⟨2, "B", "C", 7, 10⟩, ⟨3, "C", "D", 20, 15⟩] 10 none
            (fun _ => Conn.up)).store
          = ([⟨1, "A", "B", 2, 5⟩, ⟨2, "B", "C", 7, 10⟩, ⟨3, "C", "D", 20, 15⟩] :
              List Portal).filter (fun p => ¬ p.Expires < 10) :=
  ⟨by decide, fun _ => rfl,
   (Cleanup_removes_exactly_expired
      [⟨1, "A", "B", 2, 5⟩, ⟨2, "B", "C", 7, 10⟩, ⟨3, "C", "D", 20, 15⟩] 10
      (fun _ => Conn.up) (by decide) (fun _ => rfl)).1⟩

/-- C5, at the failing input: with three records, two of them expired at
`now = 10`, and the query deleting the first one failing, `deletePortal` panics
in its deferred `q.Close()`: the sweep ends there, the second expired record is
never handed to `deletePortal` and stays in the store, and nothing is logged.
In general a failing first query leaves the store as it was, with at most the
first expired record attempted. -/
theorem Cleanup_aborts_on_failed_query :
    CleanupExpiredPortals
        [⟨1, "A", "B", 2, 5⟩, ⟨2, "B", "C", 7, 6⟩, ⟨3, "C", "D", 20, 15⟩] 10 none
        (fun k => if k = 0 then Conn.queryFails "boom" else Conn.up)
        = { store := [⟨1, "A", "B", 2, 5⟩, ⟨2, "B", "C", 7, 6⟩, ⟨3, "C", "D", 20, 15⟩],
            err := none, panicked := true, attempted := [⟨1, "A", "B", 2, 5⟩],
            logged := [] }
      ∧ ∀ (store : List Portal) (now : Int) (conns : Nat → Conn) (e : Error),
          conns 0 = Conn.queryFails e →
          (CleanupExpiredPortals store now none conns).store = store
            ∧ (CleanupExpiredPortals store now none conns).attempted
                = (store.filter (fun p => p.Expires < now)).take 1
            ∧ (store.filter (fun p => p.Expires < now) ≠ [] →
                (CleanupExpiredPortals store now none conns).panicked = true) := by
  refine ⟨by decide, ?_⟩
  intro store now conns e h0
  simp only [CleanupExpiredPortals, GetPortals]
  rw [selectExpired_eq_filter]
  cases hl : store.filter (fun p => p.Expires < now) with
  | nil => simp [deleteLoop]
  | cons p rest =>
    rw [deleteLoop_cons_queryFails conns 0 p rest _ e h0]
    simp

/-- C6, at the failing input: with one expired record and `db.GetDb()` failing
inside `deletePortal`, nothing is deleted, nothing is logged and the sweep
returns nil.  `deletePortal` never returns an error (it returns nil or panics),
so once the listing has succeeded the variable `err` of the sweep is nil and
the log is empty, whatever the collaborator does. -/
theorem Cleanup_returns_nil_when_GetDb_fails :
    CleanupExpiredPortals [⟨1, "A", "B", 2, 5⟩] 10 none (fun _ => Conn.getDbFails "down")
        = { store := [⟨1, "A", "B", 2, 5⟩], err := none, panicked := false,
            attempted := [⟨1, "A", "B", 2, 5⟩], logged := [] }
      ∧ (∀ (store : List Portal) (p : Portal) (conn : Conn),
          (deletePortal store p conn).2 = Outcome.returned none
            ∨ (deletePortal store p conn).2 = Outcome.panicked)
      ∧ ∀ (store : List Portal) (now : Int) (conns : Nat → Conn),
          (CleanupExpiredPortals store now none conns).err = none
            ∧ (CleanupExpiredPortals store now none conns).logged = [] := by
  refine ⟨by decide, deletePortal_outcome, ?_⟩
  intro store now conns
  simp only [CleanupExpiredPortals, GetPortals]
  exact deleteLoop_err_none conns _ 0 _ rfl

/-! ## Adding a portal -/

theorem AddPortal_ok (store : List Portal) (p : Portal) (conn : Conn) (newId : Int)
    (h : (AddPortal store p conn newId).2 = Outcome.returned none) :
    (AddPortal store p conn newId).1 = replaceInto store p newId := by
  cases conn with
  | up => rfl
  | getDbFails e => simp [AddPortal] at h
  | queryFails e => simp [AddPortal] at h

theorem replaceInto_key (store : List Portal) (p : Portal) (newId : Int) :
    (replaceInto store p newId).filter (fun r => r.Source = p.Source ∧ r.Target = p.Target)
      = [⟨newId, p.Source, p.Target, p.Size, p.Expires⟩] := by
  unfold replaceInto
  rw [List.filter_append, List.filter_filter]
  have : store.filter (fun r => (decide (r.Source = p.Source ∧ r.Target = p.Target)
      && decide (¬ (r.Source = p.Source ∧ r.Target = p.Target)))) = [] := by
    rw [List.filter_eq_nil_iff]
    intro r _
    by_cases hk : r.Source = p.Source ∧ r.Target = p.Target <;> simp [hk]
  rw [this]
  simp

theorem replaceInto_other (store : List Portal) (p : Portal) (newId : Int) :
    (replaceInto store p newId).filter
        (fun r => ¬ (r.Source = p.Source ∧ r.Target = p.Target))
      = store.filter (fun r => ¬ (r.Source = p.Source ∧ r.Target = p.Target)) := by
  unfold replaceInto
  rw [List.filter_append, List.filter_filter]
  simp

theorem replaceInto_twice (store : List Portal) (p q : Portal) (id1 id2 : Int)
    (hs : q.Source = p.Source) (ht : q.Target = p.Target) :
    replaceInto (replaceInto store p id1) q id2 = replaceInto store q id2 := by
  unfold replaceInto
  rw [List.filter_append, List.filter_filter, hs, ht]
  simp

/-- C10: after a successful `AddPortal(p)` the store holds exactly one record
with the key `(p.Source, p.Target)`, carrying the size and expiry of `p`, and
the records with any other key are as before; a second `AddPortal(p)` leaves
the records of a single one (the same sources, targets, sizes and expiries, in
the same order; the same store as a single call that is given the second
identifier); and adding `(X, Y, 20, t1)` then `(X, Y, 7, t2)` leaves one record
for `(X, Y)`, of size 7 and expiry `t2`. -/
theorem AddPortal_upserts (store : List Portal) (p : Portal) (conn : Conn) (newId : Int)
    (h : (AddPortal store p conn newId).2 = Outcome.returned none) :
    (AddPortal store p conn newId).1.filter
          (fun r => r.Source = p.Source ∧ r.Target = p.Target)
        = [⟨newId, p.Source, p.Target, p.Size, p.Expires⟩]
      ∧ (AddPortal store p conn newId).1.filter
          (fun r => ¬ (r.Source = p.Source ∧ r.Target = p.Target))
        = store.filter (fun r => ¬ (r.Source = p.Source ∧ r.Target = p.Target))
      ∧ (∀ id2 : Int,
          (AddPortal (AddPortal store p conn newId).1 p Conn.up id2).1
              = (AddPortal store p Conn.up id2).1
            ∧ (AddPortal (AddPortal store p conn newId).1 p Conn.up id2).1.map
                (fun r => (r.Source, r.Target, r.Size, r.Expires))
              = (AddPortal store p conn newId).1.map
                (fun r => (r.Source, r.Target, r.Size, r.Expires)))
      ∧ (∀ (t1 t2 i j id1 id2 : Int),
          (AddPortal (AddPortal store ⟨i, "X", "Y", 20, t1⟩ Conn.up id1).1
              ⟨j, "X", "Y", 7, t2⟩ Conn.up id2).1.filter
            (fun r => r.Source = "X" ∧ r.Target = "Y")
          = [⟨id2, "X", "Y", 7, t2⟩]) := by
  rw [AddPortal_ok store p conn newId h]
  refine ⟨replaceInto_key store p newId, replaceInto_other store p newId, ?_, ?_⟩
  · intro id2
    have h2 : (AddPortal (replaceInto store p newId) p Conn.up id2).1
        = (AddPortal store p Conn.up id2).1 := by
      simp only [AddPortal]
      exact replaceInto_twice store p p newId id2 rfl rfl
    refine ⟨h2, ?_⟩
    rw [h2]
    simp [AddPortal, replaceInto]
  · intro t1 t2 i j id1 id2
    simp only [AddPortal]
    exact replaceInto_key _ ⟨j, "X", "Y", 7, t2⟩ id2

/-- Witness for C10: a store with a record for `(X, Y)` and one for `(Y, Z)`. -/
theorem AddPortal_upserts_witness :
    (AddPortal [⟨1, "X", "Y", 20, 100⟩, ⟨2, "Y", "Z", 2, 50⟩] ⟨0, "X", "Y", 7, 200⟩
        Conn.up 3).2 = Outcome.returned none
      ∧ (AddPortal [⟨1, "X", "Y", 20, 100⟩, ⟨2, "Y", "Z", 2, 50⟩] ⟨0, "X", "Y", 7, 200⟩
          Conn.up 3).1.filter (fun r => r.Source = "X" ∧ r.Target = "Y")
        = [⟨3, "X", "Y", 7, 200⟩] :=
  ⟨by decide,
   (AddPortal_upserts [⟨1, "X", "Y", 20, 100⟩, ⟨2, "Y", "Z", 2, 50⟩] ⟨0, "X", "Y", 7, 200⟩
      Conn.up 3 (by decide)).1⟩

end Albion
